import Mathlib

/-!
Verification of the nRF52840-DK water-meter firmware core (MTU / METER
bit-synchronous transport) against its natural-language specification.

The Rust sources are shallowly embedded: pure functions become Lean
functions on `Nat` / `List Nat` / `Bool`; the stateful edge handlers and
tasks become explicit state-passing step functions; fallible Rust code
returning `MtuResult<T>` becomes `Except MtuError`.  Machine integers
(`u8`, `u16`, `u32`, `u64`) are modelled as `Nat`; where wrap-around can
matter (the `u32` statistics counters) the increment is taken modulo
`2 ^ 32`.
-/

namespace NrfMtu

/-- `UartFraming` from `src/mtu/config.rs`: 7 data bits, even parity,
one or two stop bits. -/
inductive UartFraming
  | SevenE1
  | SevenE2
deriving DecidableEq, Repr, Fintype

/-- `UartFraming::bits_per_frame` from `src/mtu/config.rs`:
10 bits for 7E1 (1 start + 7 data + 1 parity + 1 stop),
11 bits for 7E2 (one extra stop bit). -/
def UartFraming.bits_per_frame : UartFraming → Nat
  | .SevenE1 => 10
  | .SevenE2 => 11

/-- `MtuError` from `src/mtu/error.rs`. -/
inductive MtuError
  | GpioError
  | TimeoutError
  | FramingError
  | FramingErrorInvalidBitCount
  | FramingErrorInvalidStartBit
  | FramingErrorInvalidStopBit
  | FramingErrorParityMismatch
  | ConfigError
  | ChannelError
deriving DecidableEq, Repr

/-- Decidable equality of `Except` results, needed to evaluate the
embedded fallible functions on concrete inputs. -/
instance instDecEqExcept {ε α : Type} [DecidableEq ε] [DecidableEq α] :
    DecidableEq (Except ε α)
  | .error a, .error b =>
    if h : a = b then .isTrue (by rw [h])
    else .isFalse (fun hc => h (by injection hc))
  | .error _, .ok _ => .isFalse (fun hc => Except.noConfusion hc)
  | .ok _, .error _ => .isFalse (fun hc => Except.noConfusion hc)
  | .ok a, .ok b =>
    if h : a = b then .isTrue (by rw [h])
    else .isFalse (fun hc => h (by injection hc))

/-- `UartFrame` from `src/mtu/uart_framing.rs`: a candidate frame is a
sequence of bit values (each a `u8`, modelled as `Nat`) together with the
framing it is judged against.  The heapless capacity bound (16) is
enforced by `bits_to_frame`, not by the type. -/
structure UartFrame where
  bits : List Nat
  framing : UartFraming
deriving DecidableEq, Repr

/-- `UartFrame::new` from `src/mtu/uart_framing.rs`: rejects a bit vector
whose length is not `bits_per_frame()`. -/
def UartFrame.new (bits : List Nat) (framing : UartFraming) :
    Except MtuError UartFrame :=
  if bits.length ≠ framing.bits_per_frame then .error .FramingError
  else .ok ⟨bits, framing⟩

/-- Indexing `bits[i]` of the source, on the list model (every index the
source uses is in bounds once its length check has passed, so the
default value is never observable). -/
def bitAt (l : List Nat) (i : Nat) : Nat := l.getD i 0

/-- The seven data-bit slots `bits[1..8]` of a frame. -/
def dataBits (l : List Nat) : List Nat := (l.drop 1).take 7

/-- Stop-bit check of `UartFrame::validate`: bit 9 must be 1, and for
7E2 bit 10 must also be 1. -/
def UartFrame.stopBitsBad (f : UartFrame) : Bool :=
  match f.framing with
  | .SevenE1 => bitAt f.bits 9 ≠ 1
  | .SevenE2 => bitAt f.bits 9 ≠ 1 || bitAt f.bits 10 ≠ 1

/-- `UartFrame::validate` from `src/mtu/uart_framing.rs`, with the
checks in source order: bit count, start bit, stop bit(s), even parity
(`data_ones` counts the data-bit slots holding exactly 1). -/
def UartFrame.validate (f : UartFrame) : Except MtuError Unit :=
  if f.bits.length ≠ f.framing.bits_per_frame then
    .error .FramingErrorInvalidBitCount
  else if bitAt f.bits 0 ≠ 0 then
    .error .FramingErrorInvalidStartBit
  else if f.stopBitsBad then
    .error .FramingErrorInvalidStopBit
  else
    let data_ones := ((dataBits f.bits).filter (fun b => b = 1)).length
    let expected_parity := if data_ones % 2 = 0 then 0 else 1
    if bitAt f.bits 8 ≠ expected_parity then .error .FramingErrorParityMismatch
    else .ok ()

/-- Data-bit accumulation loop of `extract_char_from_frame`:
`char_value |= 1 << i` for each data bit equal to 1, LSB first. -/
def charValue (data_bits : List Nat) : Nat :=
  data_bits.enum.foldl
    (fun acc p => if p.2 = 1 then acc ||| (1 <<< p.1) else acc) 0

/-- `extract_char_from_frame` from `src/mtu/uart_framing.rs`: validate,
assemble the value of the seven data bits (bits 1..7, LSB first), and
return it if it is ≤ 127, else `FramingError`. -/
def extract_char_from_frame (f : UartFrame) : Except MtuError Nat :=
  match f.validate with
  | .error e => .error e
  | .ok _ =>
    let char_value := charValue (dataBits f.bits)
    if char_value ≤ 127 then .ok char_value
    else .error .FramingError

/-- `bits_to_frame` from `src/mtu/uart_framing.rs`: pushing more than 16
bits into the heapless vector fails with `FramingError`; otherwise defer
to `UartFrame::new`. -/
def bits_to_frame (bits : List Nat) (framing : UartFraming) :
    Except MtuError UartFrame :=
  if bits.length > 16 then .error .FramingError
  else UartFrame.new bits framing

/-- `MeterType` from `src/meter/config.rs`. -/
inductive MeterType
  | Sensus
  | Neptune
deriving DecidableEq, Repr

/-- `MeterType::framing` from `src/meter/config.rs`. -/
def MeterType.framing : MeterType → UartFraming
  | .Sensus => .SevenE1
  | .Neptune => .SevenE2

/-- Binary population count with an explicit fuel argument (the fuel is
only there to make the recursion structural; `fuel ≥ n` suffices). -/
def natOnesAux : Nat → Nat → Nat
  | _, 0 => 0
  | 0, _ => 0
  | fuel + 1, n => n % 2 + natOnesAux fuel (n / 2)

/-- Binary population count, the model of `u8::count_ones`. -/
def natOnes (n : Nat) : Nat := natOnesAux n n

/-- `MeterHandler::build_uart_frame` from `src/meter/handler.rs`: push a
start bit, then `for i in 0..8` push `(byte >> i) & 1` (eight data bits),
then the even parity of `byte & 0x7F` and one stop bit (Sensus) or two
(Neptune).  The byte argument is a `u8`, modelled as `Nat`. -/
def build_uart_frame (byte : Nat) (meter_type : MeterType) : List Nat :=
  let data := (List.range 8).map (fun i => (byte >>> i) &&& 1)
  let parity := natOnes (byte &&& 0x7F) % 2
  match meter_type with
  | .Sensus => 0 :: data ++ [parity, 1]
  | .Neptune => 0 :: data ++ [parity, 1, 1]

/-- Modelled from the spec: `encode(byte, framing)` as §4.1 describes it
(`[0, d0 .. d6, p, 1]`, plus one more stop bit for 7E2, with `d0 .. d6`
the low seven bits of the byte LSB-first and `p` their XOR).  Stated
from the spec's words only, to be compared with `build_uart_frame`. -/
def encode_spec (byte : Nat) (f : UartFraming) : List Nat :=
  let data := (List.range 7).map (fun i => (byte >>> i) &&& 1)
  let p := data.foldr (fun x a => (x + a) % 2) 0
  match f with
  | .SevenE1 => 0 :: data ++ [p, 1]
  | .SevenE2 => 0 :: data ++ [p, 1, 1]

/-- XOR of a list of bit values in `{0, 1}`, used to state the spec's
parity condition. -/
def xorBits (l : List Nat) : Nat := l.foldr (fun b a => (b + a) % 2) 0

/-- Claim-side condition for `InvalidBitCount`: wrong number of bits. -/
def condInvalidCount (bits : List Nat) (f : UartFraming) : Prop :=
  bits.length ≠ f.bits_per_frame

/-- Claim-side condition for `InvalidStartBit`: bit 0 is not 0. -/
def condInvalidStart (bits : List Nat) : Prop := bitAt bits 0 ≠ 0

/-- Claim-side condition for `InvalidStopBit`: bit 9 is not 1, or for
7E2 bit 9 or bit 10 is not 1. -/
def condInvalidStop (bits : List Nat) (f : UartFraming) : Prop :=
  match f with
  | .SevenE1 => bitAt bits 9 ≠ 1
  | .SevenE2 => bitAt bits 9 ≠ 1 ∨ bitAt bits 10 ≠ 1

/-- Claim-side condition for `ParityMismatch`: bit 8 disagrees with the
XOR of bits 1..7. -/
def condParityMismatch (bits : List Nat) : Prop :=
  bitAt bits 8 ≠ xorBits (dataBits bits)

/-- Claim C3, stated for a bit sequence and a framing: `validate` fails
with each error kind exactly under the claim's condition for that kind
(conditions tested in the source's order), succeeds when none holds,
and in particular a 7E2 frame with the first stop bit 1 and the second
stop bit 0 never validates. -/
def C3ValidateSpec (bits : List Nat) (f : UartFraming) : Prop :=
  (UartFrame.validate ⟨bits, f⟩ = .error .FramingErrorInvalidBitCount ↔
    condInvalidCount bits f) ∧
  (UartFrame.validate ⟨bits, f⟩ = .error .FramingErrorInvalidStartBit ↔
    ¬condInvalidCount bits f ∧ condInvalidStart bits) ∧
  (UartFrame.validate ⟨bits, f⟩ = .error .FramingErrorInvalidStopBit ↔
    ¬condInvalidCount bits f ∧ ¬condInvalidStart bits ∧ condInvalidStop bits f) ∧
  (UartFrame.validate ⟨bits, f⟩ = .error .FramingErrorParityMismatch ↔
    ¬condInvalidCount bits f ∧ ¬condInvalidStart bits ∧ ¬condInvalidStop bits f ∧
    condParityMismatch bits) ∧
  (UartFrame.validate ⟨bits, f⟩ = .ok () ↔
    ¬condInvalidCount bits f ∧ ¬condInvalidStart bits ∧ ¬condInvalidStop bits f ∧
    ¬condParityMismatch bits) ∧
  (f = .SevenE2 → bitAt bits 9 = 1 → bitAt bits 10 = 0 →
    UartFrame.validate ⟨bits, f⟩ ≠ .ok ())

/-- The value `Σ dᵢ·2ⁱ` of a list of data bits, LSB first (the quantity
the spec names for `extract_byte`). -/
def specDataValue : List Nat → Nat
  | [] => 0
  | b :: rest => b + 2 * specDataValue rest

/-- The session configuration `MtuConfig` from `src/mtu/config.rs`,
restricted to the fields the claims touch (the embassy timing fields are
elided).  The counters are `u32` in the source; their increments are
modelled modulo `2 ^ 32`. -/
structure MtuConfigM where
  baud_rate : Nat
  expected_message : List Nat
  successful_reads : Nat
  corrupted_reads : Nat
deriving DecidableEq, Repr

/-- The modulus of the `u32` statistics counters. -/
def U32_MOD : Nat := 2 ^ 32

/-- `MtuConfig::bit_duration_micros` from `src/mtu/config.rs`:
`1_000_000 / baud_rate` with no zero guard.  The Rust `u64` division
panics when `baud_rate = 0`; the panic is modelled as `none`. -/
def bit_duration_micros (cfg : MtuConfigM) : Option Nat :=
  if cfg.baud_rate = 0 then none else some (1000000 / cfg.baud_rate)

/-- `GpioMtu::set_baud_rate` from `src/mtu/gpio_mtu.rs`: stores the
given `u32` unconditionally, with no validation. -/
def set_baud_rate (cfg : MtuConfigM) (baud : Nat) : MtuConfigM :=
  { cfg with baud_rate := baud }

/-- `GpioMtu::record_message_result` from `src/mtu/gpio_mtu.rs`:
compare the received message with the expected one; increment
`successful_reads` on a byte-exact match and `corrupted_reads`
otherwise (also when no message was received); return whether it
matched. -/
def record_message_result (cfg : MtuConfigM) (received : Option (List Nat)) :
    MtuConfigM × Bool :=
  match received with
  | some r =>
    if r = cfg.expected_message then
      ({ cfg with successful_reads := (cfg.successful_reads + 1) % U32_MOD },
       true)
    else
      ({ cfg with corrupted_reads := (cfg.corrupted_reads + 1) % U32_MOD },
       false)
  | none =>
    ({ cfg with corrupted_reads := (cfg.corrupted_reads + 1) % U32_MOD },
     false)

/-- Outcome of the three-way race inside `run_mtu_operation`: the clock
task returned, the data task returned (message received), or the
`max_duration` timer fired. -/
inductive RaceOutcome
  | clockTaskDone
  | dataTaskDone
  | timerFired
deriving DecidableEq, Repr

/-- `GpioMtu::run_mtu_operation` from `src/mtu/gpio_mtu.rs`, result
value only: each arm of the `match` on the race outcome merely logs,
and the function ends with `Ok(())` — it has no early return and no
`Err` path. -/
def run_mtu_operation_result (o : RaceOutcome) : Except MtuError Unit :=
  match o with
  | .clockTaskDone => .ok ()
  | .dataTaskDone => .ok ()
  | .timerFired => .ok ()

/-- `GpioMtu::run_mtu_operation_with_stats` from `src/mtu/gpio_mtu.rs`:
run the operation, record the last-message slot contents (`last`) into
the statistics, and propagate the operation's result. -/
def run_mtu_operation_with_stats (cfg : MtuConfigM) (o : RaceOutcome)
    (last : Option (List Nat)) : MtuConfigM × Except MtuError Unit :=
  let result := run_mtu_operation_result o
  let step := record_message_result cfg last
  (step.1, result)

/-- One iteration of the `run_test` loop from `src/mtu/gpio_mtu.rs`:
grade the message this transaction left in the last-message slot and
bump the matching local tally (`run_mtu_operation` always returns `Ok`,
so the loop's `Err` arm is never taken). -/
def run_test_step (acc : MtuConfigM × Nat × Nat) (m : Option (List Nat)) :
    MtuConfigM × Nat × Nat :=
  let cfg := acc.1
  let s := acc.2.1
  let c := acc.2.2
  let graded := record_message_result cfg m
  if graded.2 then (graded.1, s + 1, c) else (graded.1, s, c + 1)

/-- `GpioMtu::run_test` from `src/mtu/gpio_mtu.rs`, as a fold over the
per-iteration transaction results (the message each transaction leaves
in the last-message slot; `none` when no message was received).
Returns the final session configuration together with the
`(successful_messages, corrupted_messages)` pair handed back to the
caller. -/
def run_test (cfg : MtuConfigM) (msgs : List (Option (List Nat))) :
    MtuConfigM × Nat × Nat :=
  msgs.foldl run_test_step (cfg, 0, 0)

/-- State of the METER fast clock response task
(`fast_clock_response_task` in `src/bin/meter_app.rs`): pulse counter,
bit index, transmitting flag, the pre-built response-bit buffer, the
level last driven on DATA (`true` = HIGH) and the time of the previous
rising edge in microseconds (the logging-only `last_log_time` and the
diagnostic event channel are elided). -/
structure MeterTxState where
  pulse_count : Nat
  bit_index : Nat
  transmitting : Bool
  response_bits : List Nat
  data_high : Bool
  last_pulse_time : Nat
deriving DecidableEq, Repr

/-- `wake_up_threshold` from `src/bin/meter_app.rs`: 10 pulses. -/
def wake_up_threshold : Nat := 10

/-- `pulse_timeout` from `src/bin/meter_app.rs` (2000 ms), in µs. -/
def pulse_timeout_micros : Nat := 2000000

/-- The stall check at the top of the edge handler: while transmitting,
an inter-edge gap above the timeout resets to idle, clearing the
transmitting flag, the bit index and the pulse count, before the new
edge is counted. -/
def meterResetIfStalled (st : MeterTxState) (now : Nat) : MeterTxState :=
  if now - st.last_pulse_time > pulse_timeout_micros ∧ st.transmitting then
    { st with transmitting := false, bit_index := 0, pulse_count := 0 }
  else st

/-- The edge handler after the stall check: count the pulse and record
the edge time; then either start transmitting (wake threshold reached
while idle — the buffer is rebuilt first when empty, `rebuilt` standing
for the frames the handler's `build_response_frames` would produce, a
method whose body is absent from the sources; DATA is driven to bit 0
and the index advanced to 1), or continue transmitting (drive
`buffer[bit_index]`, advance, and after the last bit reset to idle,
clearing the counters and parking DATA HIGH), or touch nothing. -/
def meterEdgeCore (st : MeterTxState) (now : Nat) (rebuilt : List Nat) :
    MeterTxState :=
  let st := { st with pulse_count := st.pulse_count + 1,
                      last_pulse_time := now }
  if st.transmitting = false ∧ wake_up_threshold ≤ st.pulse_count then
    let bits := if st.response_bits = [] then rebuilt else st.response_bits
    if bits ≠ [] then
      { st with response_bits := bits, transmitting := true,
                data_high := bitAt bits 0 == 1, bit_index := 1 }
    else
      { st with response_bits := bits, transmitting := true, bit_index := 0 }
  else if st.transmitting = true ∧ st.bit_index < st.response_bits.length then
    let bit := bitAt st.response_bits st.bit_index
    let st := { st with data_high := bit == 1, bit_index := st.bit_index + 1 }
    if st.response_bits.length ≤ st.bit_index then
      { st with transmitting := false, bit_index := 0, pulse_count := 0,
                data_high := true }
    else st
  else st

/-- One rising CLK edge of the METER bit-pump: the stall check followed
by the edge body. -/
def meterEdge (st : MeterTxState) (now : Nat) (rebuilt : List Nat) :
    MeterTxState :=
  meterEdgeCore (meterResetIfStalled st now) now rebuilt

/-- Claim C4, stated for one edge from state `st` at time `now` with
`rebuilt` the buffer a rebuild would install: the stalled-transmission
reset happens first; an idle edge that reaches the wake threshold starts
transmitting at bit 0 with index 1 (rebuilding an empty buffer first);
a transmitting edge drives `buffer[bit_index]` and advances, resetting
to idle with DATA parked HIGH after the final bit; an idle edge below
the threshold only counts; and the bit index never decreases except
through the two resets. -/
def C4EdgeSpec (st : MeterTxState) (now : Nat) (rebuilt : List Nat) : Prop :=
  (st.transmitting = true → now - st.last_pulse_time > pulse_timeout_micros →
    meterEdge st now rebuilt =
      meterEdge { st with transmitting := false, bit_index := 0,
                          pulse_count := 0 } now rebuilt) ∧
  (st.transmitting = false → wake_up_threshold ≤ st.pulse_count + 1 →
    (if st.response_bits = [] then rebuilt else st.response_bits) ≠ [] →
    meterEdge st now rebuilt =
      { pulse_count := st.pulse_count + 1
        bit_index := 1
        transmitting := true
        response_bits :=
          if st.response_bits = [] then rebuilt else st.response_bits
        data_high :=
          bitAt (if st.response_bits = [] then rebuilt
                 else st.response_bits) 0 == 1
        last_pulse_time := now }) ∧
  (st.transmitting = false → st.pulse_count + 1 < wake_up_threshold →
    meterEdge st now rebuilt =
      { st with pulse_count := st.pulse_count + 1,
                last_pulse_time := now }) ∧
  (st.transmitting = true → now - st.last_pulse_time ≤ pulse_timeout_micros →
    st.bit_index + 1 < st.response_bits.length →
    meterEdge st now rebuilt =
      { st with data_high := bitAt st.response_bits st.bit_index == 1,
                bit_index := st.bit_index + 1,
                pulse_count := st.pulse_count + 1,
                last_pulse_time := now }) ∧
  (st.transmitting = true → now - st.last_pulse_time ≤ pulse_timeout_micros →
    st.bit_index + 1 = st.response_bits.length →
    meterEdge st now rebuilt =
      { st with transmitting := false, bit_index := 0, pulse_count := 0,
                data_high := true, last_pulse_time := now }) ∧
  (st.bit_index ≤ (meterEdge st now rebuilt).bit_index ∨
    ((meterEdge st now rebuilt).transmitting = false ∧
     (meterEdge st now rebuilt).bit_index = 0)) ∧
  ((meterEdge st now rebuilt).transmitting = false →
    (meterEdge st now rebuilt).bit_index = 0)

/-- Actions of one iteration of `GpioMtu::clock_task`
(`src/mtu/gpio_mtu.rs`), in source order; the LED diagnostic events,
the configuration snapshot and the cycle-counter bookkeeping are
elided. -/
inductive ClkAction
  | setClockLow
  | waitHalfCycle
  | sampleData (bit : Nat)
  | trySendBit (bit : Nat)
  | setClockHigh
deriving DecidableEq, Repr

/-- One cycle of `clock_task` for a mid-cycle DATA level `v`
(`data_bit = if data_val then 1 else 0`): drive CLK LOW, wait half a
cycle, read DATA, attempt exactly one enqueue of the sampled bit, drive
CLK HIGH, wait the second half cycle. -/
def clock_cycle_trace (v : Bool) : List ClkAction :=
  [.setClockLow, .waitHalfCycle, .sampleData (if v then 1 else 0),
   .trySendBit (if v then 1 else 0), .setClockHigh, .waitHalfCycle]

/-- The whole `clock_task` loop over the DATA levels of the cycles run
while the running flag stays set. -/
def clock_task_trace (samples : List Bool) : List ClkAction :=
  (samples.map clock_cycle_trace).flatten

/-- The bits the clock task hands to `try_send`, in trace order. -/
def sentBits (tr : List ClkAction) : List Nat :=
  tr.filterMap (fun a => match a with | .trySendBit b => some b | _ => none)

/-- The mid-cycle DATA samples of a trace, in trace order. -/
def sampledBits (tr : List ClkAction) : List Nat :=
  tr.filterMap (fun a => match a with | .sampleData b => some b | _ => none)

/-- Operations on the bounded SPSC bit channel between `clock_task` and
`data_task`: a producer `try_send` or a consumer `receive`. -/
inductive QOp
  | send (b : Nat)
  | recv
deriving DecidableEq, Repr

/-- Capacity of the bit channel (`Channel<ThreadModeRawMutex, u8, 64>`). -/
def queue_capacity : Nat := 64

/-- Run an interleaving of channel operations on a FIFO queue:
`try_send` appends when there is room and otherwise drops the bit and
counts it; `receive` takes the oldest element.  Returns the final queue
contents, the received sequence and the drop count, or `none` when the
schedule would run `receive` on an empty queue (the consumer is still
suspended there, so no real schedule does). -/
def runQueue : List QOp → List Nat → Option (List Nat × List Nat × Nat)
  | [], q => some (q, [], 0)
  | .send b :: ops, q =>
    if q.length < queue_capacity then
      runQueue ops (q ++ [b])
    else
      match runQueue ops q with
      | none => none
      | some (qf, rcvd, drops) => some (qf, rcvd, drops + 1)
  | .recv :: ops, q =>
    match q with
    | [] => none
    | x :: q' =>
      match runQueue ops q' with
      | none => none
      | some (qf, rcvd, drops) => some (qf, x :: rcvd, drops)

/-- The values a schedule sends, in order. -/
def sendsOf (ops : List QOp) : List Nat :=
  ops.filterMap (fun o => match o with | .send b => some b | _ => none)

/-- Input events of the MTU data task (`GpioMtu::data_task` in
`src/mtu/gpio_mtu.rs`): a bit received from the channel, or the
2-second per-bit timeout firing with no bit available. -/
inductive BitEvent
  | bit (b : Nat)
  | gap
deriving DecidableEq, Repr

/-- Frame decoding as `data_task` performs it: `UartFrame::new` on the
gathered bits, then `extract_char_from_frame`. -/
def frame_decode (fbits : List Nat) (f : UartFraming) : Except MtuError Nat :=
  match UartFrame.new fbits f with
  | .error e => .error e
  | .ok frame => extract_char_from_frame frame

/-- The data task's two receive modes: hunting for a start bit, or
gathering the rest of a frame into the frame scratch. -/
inductive RxPhase
  | hunting
  | gathering (acc : List Nat)
deriving DecidableEq, Repr

/-- Capacity of the message scratch `heapless::Vec<char, 256>`. -/
def message_capacity : Nat := 256

/-- `GpioMtu::data_task`, one event at a time.  While hunting, `1`
(idle) and any other non-zero value are discarded and a `0` starts a
frame (the start bit entering the scratch); while gathering, a timeout
abandons the frame, and once `bits_per_frame` bits are held the frame
codec runs — on error the task resumes hunting; on success the decoded
character is pushed onto the message scratch, a `heapless::Vec` of
capacity 256 whose push failure is silently discarded
(`let _ = received_chars.push(ch)`), so a push onto a full scratch
leaves it unchanged; a carriage return (13) then stores the scratch as
it stands after that push attempt in the last-message slot and stops
the task.  The run ends when the events are exhausted (cancellation /
the session clearing the running flag); the final slot value and the
leftover message scratch (only ever reported as a diagnostic count)
are returned. -/
def data_task_go (f : UartFraming) :
    List BitEvent → RxPhase → List Nat → Option (List Nat) →
    Option (List Nat) × List Nat
  | [], _, chars, slot => (slot, chars)
  | ev :: rest, .hunting, chars, slot =>
    match ev with
    | .gap => data_task_go f rest .hunting chars slot
    | .bit 0 => data_task_go f rest (.gathering [0]) chars slot
    | .bit _ => data_task_go f rest .hunting chars slot
  | ev :: rest, .gathering acc, chars, slot =>
    match ev with
    | .gap => data_task_go f rest .hunting chars slot
    | .bit v =>
      if (acc ++ [v]).length < f.bits_per_frame then
        data_task_go f rest (.gathering (acc ++ [v])) chars slot
      else
        match frame_decode (acc ++ [v]) f with
        | .error _ => data_task_go f rest .hunting chars slot
        | .ok ch =>
          let chars' :=
            if chars.length < message_capacity then chars ++ [ch] else chars
          if ch = 13 then (some chars', [])
          else data_task_go f rest .hunting chars' slot

/-- A whole run of the data task: hunting, with an empty message
scratch, over the given events, with the last-message slot holding its
value from before the run. -/
def data_task (f : UartFraming) (evs : List BitEvent)
    (slot : Option (List Nat)) : Option (List Nat) × List Nat :=
  data_task_go f evs .hunting [] slot

/-- Claim C1: the codec round-trip `extract_char_from_frame ∘
build_uart_frame` should return the original byte for every `b ≤ 127`
and both framings.  It does not: `build_uart_frame` pushes eight data
bits (loop `0..8`), so its Sensus frame has 11 bits where
`bits_per_frame(SEVEN_E_1) = 10`, and both `bits_to_frame` and
`UartFrame::validate` reject it (evaluated here at the failing input
`b = 0x41 = 65`; the Neptune frame has 12 bits and fails the same way).
The round trip does hold for the spec's seven-data-bit encoder
`encode_spec`, showing the spec is the intent and the code the slip. -/
theorem claim_C1_roundtrip_fails_on_code :
    bits_to_frame (build_uart_frame 65 .Sensus) .SevenE1 = .error .FramingError ∧
    UartFrame.validate ⟨build_uart_frame 65 .Sensus, .SevenE1⟩ =
      .error .FramingErrorInvalidBitCount ∧
    extract_char_from_frame ⟨build_uart_frame 65 .Sensus, .SevenE1⟩ =
      .error .FramingErrorInvalidBitCount ∧
    bits_to_frame (build_uart_frame 65 .Neptune) .SevenE2 = .error .FramingError ∧
    (∀ b : Fin 128, ∀ f : UartFraming,
      Except.bind (bits_to_frame (encode_spec b.val f) f) extract_char_from_frame
        = .ok b.val) := by
  refine ⟨by decide, by decide, by decide, by decide, by decide⟩

/-- Claim C2: the encoder should produce `[0, d0 .. d6, p, 1]` (7 data
bits, total length `bits_per_frame(f)`).  It does not: for every byte
and meter type the built frame has `bits_per_frame + 1` elements, slot 8
of a Sensus frame (the validator's parity slot) holds the byte's MSB
`(b >> 7) & 1` instead of the parity, and at the spec's own example
byte `0x55 = 85` (Neptune / 7E2) the built frame differs from the
spec-described encoding. -/
theorem claim_C2_encoder_shape_mismatch :
    (∀ byte : Nat, ∀ mt : MeterType,
      (build_uart_frame byte mt).length = mt.framing.bits_per_frame + 1) ∧
    (∀ byte : Nat,
      (build_uart_frame byte .Sensus).getD 8 0 = (byte >>> 7) &&& 1) ∧
    build_uart_frame 85 .Neptune = [0, 1, 0, 1, 0, 1, 0, 1, 0, 0, 1, 1] ∧
    encode_spec 85 .SevenE2 = [0, 1, 0, 1, 0, 1, 0, 1, 0, 1, 1] ∧
    build_uart_frame 85 .Neptune ≠ encode_spec 85 .SevenE2 := by
  refine ⟨?_, ?_, by decide, by decide, by decide⟩
  · intro byte mt
    cases mt <;>
      simp [build_uart_frame, UartFraming.bits_per_frame, MeterType.framing]
  · intro byte
    simp [build_uart_frame, List.range_succ]

theorem xorBits_le_one (l : List Nat) : xorBits l ≤ 1 := by
  cases l with
  | nil => simp [xorBits]
  | cons x xs => simp [xorBits]; omega

theorem count_ones_mod_two_eq_xorBits (l : List Nat) (h : ∀ b ∈ l, b ≤ 1) :
    (l.filter (fun b => b = 1)).length % 2 = xorBits l := by
  induction l with
  | nil => rfl
  | cons x xs ih =>
    have hx : x ≤ 1 := h x (List.mem_cons_self x xs)
    have hxs : ∀ b ∈ xs, b ≤ 1 := fun b hb => h b (List.mem_cons_of_mem x hb)
    have hrec := ih hxs
    have hle := xorBits_le_one xs
    interval_cases x
    · have hf : List.filter (fun b => decide (b = 1)) (0 :: xs) =
          List.filter (fun b => decide (b = 1)) xs := rfl
      have hxr : xorBits (0 :: xs) = (0 + xorBits xs) % 2 := rfl
      rw [hf, hxr]
      omega
    · have hf : List.filter (fun b => decide (b = 1)) (1 :: xs) =
          1 :: List.filter (fun b => decide (b = 1)) xs := rfl
      have hxr : xorBits (1 :: xs) = (1 + xorBits xs) % 2 := rfl
      rw [hf, hxr, List.length_cons]
      omega

/-- Claim C3: for every bit sequence (entries in `{0, 1}`) and every
framing, `validate` returns each error kind exactly under the condition
the claim states for it (the checks apply in the source's order: bit
count, then start bit, then stop bits, then parity), succeeds when no
condition holds, and a 7E2 frame with stop bit 1 = 1 and stop bit 2 = 0
fails validation. -/
theorem claim_C3_validate_error_conditions (bits : List Nat)
    (f : UartFraming) (h : ∀ b ∈ bits, b ≤ 1) : C3ValidateSpec bits f := by
  have hsub : ∀ b ∈ dataBits bits, b ≤ 1 := by
    intro b hb
    have hb' : b ∈ (bits.drop 1).take 7 := hb
    exact h b (List.drop_subset 1 bits (List.take_subset 7 (bits.drop 1) hb'))
  have hcnt := count_ones_mod_two_eq_xorBits _ hsub
  have hstop : (UartFrame.stopBitsBad ⟨bits, f⟩ = true) ↔ condInvalidStop bits f := by
    cases f <;> simp [UartFrame.stopBitsBad, condInvalidStop]
  have hstopE2 : f = .SevenE2 → bitAt bits 9 = 1 → bitAt bits 10 = 0 →
      UartFrame.stopBitsBad ⟨bits, f⟩ = true := by
    intro hf h9 h10
    subst hf
    apply hstop.mpr
    show bitAt bits 9 ≠ 1 ∨ bitAt bits 10 ≠ 1
    right
    rw [h10]
    decide
  have hexp : (if (((dataBits bits).filter (fun b => b = 1)).length) % 2 = 0
      then (0 : Nat) else 1) = xorBits (dataBits bits) := by
    rw [← hcnt]
    rcases Nat.mod_two_eq_zero_or_one
      (((dataBits bits).filter (fun b => b = 1)).length) with h0 | h0
    · rw [if_pos h0, h0]
    · rw [if_neg (by omega), h0]
  by_cases h1 : bits.length = f.bits_per_frame
  case neg =>
    have hv : UartFrame.validate ⟨bits, f⟩ = .error .FramingErrorInvalidBitCount := by
      unfold UartFrame.validate
      rw [if_pos h1]
    refine ⟨?_, ?_, ?_, ?_, ?_, ?_⟩ <;>
      simp [hv, condInvalidCount, h1]
  case pos =>
    by_cases h2 : bitAt bits 0 = 0
    case neg =>
      have hv : UartFrame.validate ⟨bits, f⟩ = .error .FramingErrorInvalidStartBit := by
        unfold UartFrame.validate
        rw [if_neg (by simp [h1]), if_pos h2]
      refine ⟨?_, ?_, ?_, ?_, ?_, ?_⟩ <;>
        simp [hv, condInvalidCount, condInvalidStart, h1, h2]
    case pos =>
      by_cases h3 : UartFrame.stopBitsBad ⟨bits, f⟩ = true
      case pos =>
        have hv : UartFrame.validate ⟨bits, f⟩ = .error .FramingErrorInvalidStopBit := by
          unfold UartFrame.validate
          rw [if_neg (by simp [h1]), if_neg (by simp [h2]), if_pos h3]
        refine ⟨?_, ?_, ?_, ?_, ?_, ?_⟩ <;>
          simp [hv, condInvalidCount, condInvalidStart, h1, h2, hstop.mp h3]
      case neg =>
        have hns : ¬condInvalidStop bits f := fun hc => h3 (hstop.mpr hc)
        have hvp : UartFrame.validate ⟨bits, f⟩ =
            (if bitAt bits 8 ≠ xorBits (dataBits bits)
             then .error .FramingErrorParityMismatch else .ok ()) := by
          unfold UartFrame.validate
          rw [if_neg (by simp [h1]), if_neg (by simp [h2]), if_neg h3]
          show (if bitAt bits 8 ≠ (if _ % 2 = 0 then 0 else 1) then _ else _) = _
          rw [hexp]
        by_cases h4 : bitAt bits 8 = xorBits (dataBits bits)
        case neg =>
          have hv : UartFrame.validate ⟨bits, f⟩ =
              .error .FramingErrorParityMismatch := by rw [hvp, if_pos h4]
          refine ⟨?_, ?_, ?_, ?_, ?_, ?_⟩ <;>
            simp [hv, condInvalidCount, condInvalidStart, condParityMismatch,
              h1, h2, hns, h4]
        case pos =>
          have hv : UartFrame.validate ⟨bits, f⟩ = .ok () := by
            rw [hvp, if_neg (by simpa using h4)]
          refine ⟨?_, ?_, ?_, ?_, ?_, ?_⟩
          · simp [hv, condInvalidCount, h1]
          · simp [hv, condInvalidStart, h2]
          · simp [hv, hns]
          · simp [hv, condParityMismatch, h4]
          · simp [hv, condInvalidCount, condInvalidStart, condParityMismatch,
              h1, h2, hns, h4]
          · intro hf h9 h10
            exact absurd (hstopE2 hf h9 h10) h3

theorem lor_two_pow_of_lt {k acc : Nat} (h : acc < 2 ^ k) :
    acc ||| 2 ^ k = acc + 2 ^ k := by
  have hor := Nat.mul_add_lt_is_or h 1
  rw [Nat.mul_one] at hor
  rw [Nat.lor_comm, ← hor, Nat.add_comm]

theorem charFold_eq (l : List Nat) : ∀ (k acc : Nat), (∀ b ∈ l, b ≤ 1) →
    acc < 2 ^ k →
    (List.enumFrom k l).foldl
        (fun acc p => if p.2 = 1 then acc ||| (1 <<< p.1) else acc) acc
      = acc + 2 ^ k * specDataValue l ∧
    acc + 2 ^ k * specDataValue l < 2 ^ (k + l.length) := by
  induction l with
  | nil =>
    intro k acc _ hlt
    simpa [specDataValue] using hlt
  | cons x xs ih =>
    intro k acc hb hlt
    have hx : x ≤ 1 := hb x (List.mem_cons_self x xs)
    have hxs : ∀ b ∈ xs, b ≤ 1 := fun b hbm => hb b (List.mem_cons_of_mem x hbm)
    have hshift : (1 : Nat) <<< k = 2 ^ k := by
      rw [Nat.shiftLeft_eq, Nat.one_mul]
    have hstep : List.enumFrom k (x :: xs) = (k, x) :: List.enumFrom (k + 1) xs := rfl
    rw [hstep, List.foldl_cons]
    interval_cases x
    · have hlt' : acc < 2 ^ (k + 1) := lt_of_lt_of_le hlt
        (Nat.pow_le_pow_right (by omega) (by omega))
      have hrec := ih (k + 1) acc hxs hlt'
      simp only [specDataValue]
      rw [if_neg (by simp)]
      constructor
      · rw [hrec.1]
        ring_nf
      · have := hrec.2
        have hpow : (2 : Nat) ^ (k + 1) = 2 * 2 ^ k := by ring
        have hlen : k + 1 + xs.length = k + (xs.length + 1) := by omega
        rw [hpow] at this
        rw [hlen] at this
        calc acc + 2 ^ k * (0 + 2 * specDataValue xs)
            = acc + 2 * 2 ^ k * specDataValue xs := by ring
          _ < 2 ^ (k + (xs.length + 1)) := by
              have h2 : 2 * 2 ^ k * specDataValue xs = 2 ^ k * (2 * specDataValue xs) := by ring
              omega
    · have hacc' : acc ||| (1 <<< k) = acc + 2 ^ k := by
        rw [hshift]
        exact lor_two_pow_of_lt hlt
      have hlt' : acc + 2 ^ k < 2 ^ (k + 1) := by
        have hpow : (2 : Nat) ^ (k + 1) = 2 * 2 ^ k := by ring
        omega
      have hrec := ih (k + 1) (acc + 2 ^ k) hxs hlt'
      simp only [specDataValue]
      rw [if_pos (by trivial), hacc']
      constructor
      · rw [hrec.1]
        ring_nf
      · have := hrec.2
        have hpow : (2 : Nat) ^ (k + 1) = 2 * 2 ^ k := by ring
        have hlen : k + 1 + xs.length = k + (xs.length + 1) := by omega
        rw [hpow, hlen] at this
        calc acc + 2 ^ k * (1 + 2 * specDataValue xs)
            = acc + 2 ^ k + 2 * 2 ^ k * specDataValue xs := by ring
          _ < 2 ^ (k + (xs.length + 1)) := by
              have h2 : 2 * 2 ^ k * specDataValue xs = 2 ^ k * (2 * specDataValue xs) := by ring
              omega

theorem charFold_lt (l : List Nat) : ∀ (k acc n : Nat), k + l.length ≤ n →
    acc < 2 ^ n →
    (List.enumFrom k l).foldl
        (fun acc p => if p.2 = 1 then acc ||| (1 <<< p.1) else acc) acc
      < 2 ^ n := by
  induction l with
  | nil =>
    intro k acc n _ hacc
    simpa using hacc
  | cons x xs ih =>
    intro k acc n hk hacc
    have hlen : (x :: xs).length = xs.length + 1 := rfl
    rw [hlen] at hk
    have hstep : List.enumFrom k (x :: xs) = (k, x) :: List.enumFrom (k + 1) xs := rfl
    rw [hstep, List.foldl_cons]
    have hor : (if x = 1 then acc ||| (1 <<< k) else acc) < 2 ^ n := by
      by_cases hx : x = 1
      · rw [if_pos hx, Nat.shiftLeft_eq, Nat.one_mul]
        have h2k : (2 : Nat) ^ k < 2 ^ n := Nat.pow_lt_pow_right (by omega) (by omega)
        exact Nat.bitwise_lt hacc h2k
      · rw [if_neg hx]
        exact hacc
    exact ih (k + 1) _ n (by omega) hor

theorem charValue_eq_specDataValue (l : List Nat) (h : ∀ b ∈ l, b ≤ 1) :
    charValue l = specDataValue l ∧ specDataValue l < 2 ^ l.length := by
  have hz : (0 : Nat) < 2 ^ 0 := by omega
  have hres := charFold_eq l 0 0 h hz
  constructor
  · have : charValue l = (List.enumFrom 0 l).foldl
        (fun acc p => if p.2 = 1 then acc ||| (1 <<< p.1) else acc) 0 := rfl
    rw [this, hres.1]
    ring
  · have := hres.2
    simpa using this

theorem charValue_lt_128 (l : List Nat) (h : l.length ≤ 7) :
    charValue l < 128 := by
  have : charValue l = (List.enumFrom 0 l).foldl
      (fun acc p => if p.2 = 1 then acc ||| (1 <<< p.1) else acc) 0 := rfl
  rw [this]
  have h128 : (128 : Nat) = 2 ^ 7 := by norm_num
  rw [h128]
  exact charFold_lt l 0 0 7 (by omega) (by norm_num)

theorem validate_never_plain_framing_error (g : UartFrame) :
    UartFrame.validate g ≠ .error .FramingError := by
  unfold UartFrame.validate
  split_ifs <;> try simp
  repeat' split
  all_goals simp

theorem dataBits_length_le (l : List Nat) : (dataBits l).length ≤ 7 := by
  simp [dataBits]

/-- Claim C8: a frame that passes `validate` extracts to exactly
`Σ dᵢ·2ⁱ` over its seven data bits, that value is at most 127, and the
`FramingError` branch for values above 127 is unreachable for every
frame (validated or not). -/
theorem claim_C8_extract_value_bounded (bits : List Nat) (f : UartFraming)
    (h : ∀ b ∈ bits, b ≤ 1)
    (hok : UartFrame.validate ⟨bits, f⟩ = .ok ()) :
    extract_char_from_frame ⟨bits, f⟩ = .ok (specDataValue (dataBits bits)) ∧
    specDataValue (dataBits bits) ≤ 127 ∧
    ∀ g : UartFrame, extract_char_from_frame g ≠ .error .FramingError := by
  have hsub : ∀ b ∈ dataBits bits, b ≤ 1 := by
    intro b hb
    have hb' : b ∈ (bits.drop 1).take 7 := hb
    exact h b (List.drop_subset 1 bits (List.take_subset 7 (bits.drop 1) hb'))
  have hcv := charValue_eq_specDataValue (dataBits bits) hsub
  have hlen := dataBits_length_le bits
  have hbound : specDataValue (dataBits bits) ≤ 127 := by
    have hl : (2 : Nat) ^ (dataBits bits).length ≤ 2 ^ 7 :=
      Nat.pow_le_pow_right (by omega) hlen
    have := hcv.2
    omega
  refine ⟨?_, hbound, ?_⟩
  · unfold extract_char_from_frame
    rw [hok]
    show (if charValue (dataBits bits) ≤ 127
          then Except.ok (charValue (dataBits bits))
          else Except.error MtuError.FramingError)
        = Except.ok (specDataValue (dataBits bits))
    rw [hcv.1, if_pos hbound]
  · intro g
    unfold extract_char_from_frame
    cases hv : UartFrame.validate g with
    | error e =>
      intro hc
      have he : e = MtuError.FramingError := by
        have hc' : (Except.error e : Except MtuError Nat) =
            .error .FramingError := hc
        injection hc'
      rw [he] at hv
      exact validate_never_plain_framing_error g hv
    | ok u =>
      show ¬(if charValue (dataBits g.bits) ≤ 127
             then Except.ok (charValue (dataBits g.bits))
             else Except.error MtuError.FramingError)
          = Except.error MtuError.FramingError
      have hlt := charValue_lt_128 (dataBits g.bits) (dataBits_length_le g.bits)
      rw [if_pos (by omega : charValue (dataBits g.bits) ≤ 127)]
      intro hc
      exact Except.noConfusion hc

/-- Witness for claim C8 at the valid 7E1 frame encoding ASCII 65. -/
theorem claim_C8_witness :
    ((∀ b ∈ ([0, 1, 0, 0, 0, 0, 0, 1, 0, 1] : List Nat), b ≤ 1) ∧
     UartFrame.validate ⟨[0, 1, 0, 0, 0, 0, 0, 1, 0, 1], .SevenE1⟩ = .ok ()) ∧
    (extract_char_from_frame ⟨[0, 1, 0, 0, 0, 0, 0, 1, 0, 1], .SevenE1⟩ =
       .ok (specDataValue (dataBits [0, 1, 0, 0, 0, 0, 0, 1, 0, 1])) ∧
     specDataValue (dataBits [0, 1, 0, 0, 0, 0, 0, 1, 0, 1]) ≤ 127 ∧
     ∀ g : UartFrame, extract_char_from_frame g ≠ .error .FramingError) :=
  ⟨⟨by decide, by decide⟩,
   claim_C8_extract_value_bounded [0, 1, 0, 0, 0, 0, 0, 1, 0, 1] .SevenE1
     (by decide) (by decide)⟩

/-- Witness for claim C3 at the concrete valid 7E1 frame encoding
ASCII 65. -/
theorem claim_C3_witness :
    (∀ b ∈ ([0, 1, 0, 0, 0, 0, 0, 1, 0, 1] : List Nat), b ≤ 1) ∧
    C3ValidateSpec [0, 1, 0, 0, 0, 0, 0, 1, 0, 1] .SevenE1 :=
  ⟨by decide,
   claim_C3_validate_error_conditions [0, 1, 0, 0, 0, 0, 0, 1, 0, 1]
     .SevenE1 (by decide)⟩

theorem run_test_fold (msgs : List (Option (List Nat))) :
    ∀ (baud : Nat) (msg : List Nat) (sr cr s c : Nat),
    sr + msgs.length < U32_MOD →
    cr + msgs.length < U32_MOD →
    (msgs.foldl run_test_step (⟨baud, msg, sr, cr⟩, s, c)).2.1 +
        (msgs.foldl run_test_step (⟨baud, msg, sr, cr⟩, s, c)).2.2 =
        s + c + msgs.length ∧
    (msgs.foldl run_test_step (⟨baud, msg, sr, cr⟩, s, c)).1.successful_reads
        + s = sr + (msgs.foldl run_test_step (⟨baud, msg, sr, cr⟩, s, c)).2.1 ∧
    (msgs.foldl run_test_step (⟨baud, msg, sr, cr⟩, s, c)).1.corrupted_reads
        + c = cr + (msgs.foldl run_test_step (⟨baud, msg, sr, cr⟩, s, c)).2.2 ∧
    (msgs.foldl run_test_step (⟨baud, msg, sr, cr⟩, s, c)).1.expected_message
        = msg := by
  induction msgs with
  | nil =>
    intro baud msg sr cr s c _ _
    simp
  | cons m rest ih =>
    intro baud msg sr cr s c hs hc
    simp only [List.length_cons] at hs hc ⊢
    rw [List.foldl_cons]
    rcases m with _ | r
    · have hmod : (cr + 1) % U32_MOD = cr + 1 := Nat.mod_eq_of_lt (by omega)
      have hstep : run_test_step (⟨baud, msg, sr, cr⟩, s, c) none =
          (⟨baud, msg, sr, cr + 1⟩, s, c + 1) := by
        simp [run_test_step, record_message_result, hmod]
      rw [hstep]
      obtain ⟨h1, h2, h3, h4⟩ :=
        ih baud msg sr (cr + 1) s (c + 1) (by omega) (by omega)
      exact ⟨by omega, by omega, by omega, h4⟩
    · by_cases hr : r = msg
      · have hmod : (sr + 1) % U32_MOD = sr + 1 := Nat.mod_eq_of_lt (by omega)
        have hstep : run_test_step (⟨baud, msg, sr, cr⟩, s, c) (some r) =
            (⟨baud, msg, sr + 1, cr⟩, s + 1, c) := by
          simp [run_test_step, record_message_result, hr, hmod]
        rw [hstep]
        obtain ⟨h1, h2, h3, h4⟩ :=
          ih baud msg (sr + 1) cr (s + 1) c (by omega) (by omega)
        exact ⟨by omega, by omega, by omega, h4⟩
      · have hmod : (cr + 1) % U32_MOD = cr + 1 := Nat.mod_eq_of_lt (by omega)
        have hstep : run_test_step (⟨baud, msg, sr, cr⟩, s, c) (some r) =
            (⟨baud, msg, sr, cr + 1⟩, s, c + 1) := by
          simp [run_test_step, record_message_result, hr, hmod]
        rw [hstep]
        obtain ⟨h1, h2, h3, h4⟩ :=
          ih baud msg sr (cr + 1) s (c + 1) (by omega) (by omega)
        exact ⟨by omega, by omega, by omega, h4⟩

/-- Claim C7: `run_test` over `n` per-transaction results returns a pair
`(successful, corrupted)` with `successful + corrupted = n` (each
transaction bumps exactly one tally: successful on byte-exact match,
corrupted otherwise — including when no message was received), and the
cumulative configuration counters grow by exactly those deltas (stated
below the `u32` wrap bound, which a 65535-iteration `u16` test respects
unless the lifetime counters are already near `2^32`). -/
theorem claim_C7_run_test_grading (cfg : MtuConfigM)
    (msgs : List (Option (List Nat)))
    (hs : cfg.successful_reads + msgs.length < U32_MOD)
    (hc : cfg.corrupted_reads + msgs.length < U32_MOD) :
    (run_test cfg msgs).2.1 + (run_test cfg msgs).2.2 = msgs.length ∧
    (run_test cfg msgs).1.successful_reads =
      cfg.successful_reads + (run_test cfg msgs).2.1 ∧
    (run_test cfg msgs).1.corrupted_reads =
      cfg.corrupted_reads + (run_test cfg msgs).2.2 := by
  obtain ⟨baud, msg, sr, cr⟩ := cfg
  have hs' : sr + msgs.length < U32_MOD := hs
  have hc' : cr + msgs.length < U32_MOD := hc
  obtain ⟨h1, h2, h3, _⟩ := run_test_fold msgs baud msg sr cr 0 0 hs' hc'
  show (msgs.foldl run_test_step (⟨baud, msg, sr, cr⟩, 0, 0)).2.1 +
      (msgs.foldl run_test_step (⟨baud, msg, sr, cr⟩, 0, 0)).2.2 = msgs.length ∧
    (msgs.foldl run_test_step (⟨baud, msg, sr, cr⟩, 0, 0)).1.successful_reads =
      sr + (msgs.foldl run_test_step (⟨baud, msg, sr, cr⟩, 0, 0)).2.1 ∧
    (msgs.foldl run_test_step (⟨baud, msg, sr, cr⟩, 0, 0)).1.corrupted_reads =
      cr + (msgs.foldl run_test_step (⟨baud, msg, sr, cr⟩, 0, 0)).2.2
  exact ⟨by omega, by omega, by omega⟩

/-- Witness for claim C7: three transactions — one matching the expected
message, one corrupted, one with no message at all. -/
theorem claim_C7_witness :
    ((⟨1200, [65, 13], 5, 7⟩ : MtuConfigM).successful_reads + 3 < U32_MOD ∧
     (⟨1200, [65, 13], 5, 7⟩ : MtuConfigM).corrupted_reads + 3 < U32_MOD) ∧
    ((run_test ⟨1200, [65, 13], 5, 7⟩
        [some [65, 13], some [66, 13], none]).2.1 +
      (run_test ⟨1200, [65, 13], 5, 7⟩
        [some [65, 13], some [66, 13], none]).2.2 = 3 ∧
     (run_test ⟨1200, [65, 13], 5, 7⟩
        [some [65, 13], some [66, 13], none]).1.successful_reads =
       5 + (run_test ⟨1200, [65, 13], 5, 7⟩
        [some [65, 13], some [66, 13], none]).2.1 ∧
     (run_test ⟨1200, [65, 13], 5, 7⟩
        [some [65, 13], some [66, 13], none]).1.corrupted_reads =
       7 + (run_test ⟨1200, [65, 13], 5, 7⟩
        [some [65, 13], some [66, 13], none]).2.2) :=
  ⟨⟨by decide, by decide⟩,
   claim_C7_run_test_grading ⟨1200, [65, 13], 5, 7⟩
     [some [65, 13], some [66, 13], none] (by decide) (by decide)⟩

/-- Claim C9: `bit_duration_micros` divides `1_000_000` by the baud
rate with no guard — it returns `⌊1_000_000 / baud⌋` microseconds
exactly when `baud_rate > 0`, while `set_baud_rate` accepts every value
including 0, for which the division fails (modelled as `none`, a Rust
division-by-zero panic in the clock task's per-cycle snapshot). -/
theorem claim_C9_baud_rate_division (cfg : MtuConfigM) (b : Nat)
    (hb : cfg.baud_rate ≠ 0) :
    bit_duration_micros cfg = some (1000000 / cfg.baud_rate) ∧
    (set_baud_rate cfg b).baud_rate = b ∧
    bit_duration_micros (set_baud_rate cfg 0) = none := by
  refine ⟨?_, rfl, ?_⟩
  · simp [bit_duration_micros, hb]
  · simp [bit_duration_micros, set_baud_rate]

/-- Witness for claim C9 at the default baud rate 1200 and the
unguarded value 0. -/
theorem claim_C9_witness :
    (⟨1200, [], 0, 0⟩ : MtuConfigM).baud_rate ≠ 0 ∧
    (bit_duration_micros ⟨1200, [], 0, 0⟩ = some (1000000 / 1200) ∧
     (set_baud_rate ⟨1200, [], 0, 0⟩ 0).baud_rate = 0 ∧
     bit_duration_micros (set_baud_rate ⟨1200, [], 0, 0⟩ 0) = none) :=
  ⟨by decide, claim_C9_baud_rate_division ⟨1200, [], 0, 0⟩ 0 (by decide)⟩

/-- Claim C10: `run_mtu_operation` returns `Ok(())` on every race
outcome, including a `max_duration` timeout with no message; the
timeout is observable only through grading — with an empty last-message
slot, `run_mtu_operation_with_stats` still returns `Ok` and increments
only `corrupted_reads`. -/
theorem claim_C10_operation_always_ok :
    (∀ o : RaceOutcome, run_mtu_operation_result o = .ok ()) ∧
    (∀ (cfg : MtuConfigM) (o : RaceOutcome),
      (run_mtu_operation_with_stats cfg o none).2 = .ok () ∧
      (run_mtu_operation_with_stats cfg o none).1.corrupted_reads =
        (cfg.corrupted_reads + 1) % U32_MOD ∧
      (run_mtu_operation_with_stats cfg o none).1.successful_reads =
        cfg.successful_reads) := by
  constructor
  · intro o
    cases o <;> rfl
  · intro cfg o
    refine ⟨?_, rfl, rfl⟩
    cases o <;> rfl

/-- Claim C4: one rising CLK edge of the METER bit-pump behaves exactly
as the spec's per-edge algorithm prescribes — stall reset first, then
wake-up into transmission driving bit 0 (rebuilding an empty buffer),
then per-edge bit shifting with an idle reset (DATA parked HIGH) after
the final bit; the bit index never decreases except at those resets.
The hypothesis is the reachability invariant that an idle task has bit
index 0 (true of the initial state and preserved by every edge, as the
last conjunct of `C4EdgeSpec` shows). -/
theorem claim_C4_meter_edge_step (st : MeterTxState) (now : Nat)
    (rebuilt : List Nat)
    (hinv : st.transmitting = false → st.bit_index = 0) :
    C4EdgeSpec st now rebuilt := by
  obtain ⟨pc, bi, tx, bits, dh, lt⟩ := st
  simp only at hinv
  refine ⟨?_, ?_, ?_, ?_, ?_, ?_, ?_⟩
  · intro htx hgap
    simp only at htx hgap
    subst htx
    simp [meterEdge, meterResetIfStalled, hgap]
  · intro htx hw hne
    simp only at htx hw hne
    subst htx
    simp [meterEdge, meterResetIfStalled, meterEdgeCore, hw, hne]
  · intro htx hlow
    simp only at htx hlow
    subst htx
    simp [meterEdge, meterResetIfStalled, meterEdgeCore, Nat.not_le.mpr hlow]
  · intro htx hng hlt2
    simp only at htx hng hlt2
    subst htx
    have hbi : bi < bits.length := by omega
    simp [meterEdge, meterResetIfStalled, meterEdgeCore, Nat.not_lt.mpr hng,
      hbi, Nat.not_le.mpr hlt2]
  · intro htx hng hlen
    simp only at htx hng hlen
    subst htx
    have hbi : bi < bits.length := by omega
    have hdone : bits.length ≤ bi + 1 := by omega
    simp [meterEdge, meterResetIfStalled, meterEdgeCore, Nat.not_lt.mpr hng,
      hbi, hdone]
  · cases tx with
    | false =>
      have hbi : bi = 0 := hinv rfl
      subst hbi
      left
      simp
    | true =>
      by_cases hgap : now - lt > pulse_timeout_micros
      · right
        simp [meterEdge, meterResetIfStalled, hgap, meterEdgeCore,
          wake_up_threshold]
      · by_cases hbi : bi < bits.length
        · by_cases hdone : bits.length ≤ bi + 1
          · right
            simp [meterEdge, meterResetIfStalled, hgap,
              meterEdgeCore, hbi, hdone]
          · left
            simp [meterEdge, meterResetIfStalled, hgap,
              meterEdgeCore, hbi, hdone]
        · left
          simp [meterEdge, meterResetIfStalled, hgap, meterEdgeCore, hbi]
  · intro hidle
    cases tx with
    | false =>
      have hbi : bi = 0 := hinv rfl
      subst hbi
      by_cases hw : wake_up_threshold ≤ pc + 1
      · by_cases hne : (if bits = [] then rebuilt else bits) = []
        · simp [meterEdge, meterResetIfStalled, meterEdgeCore, hw, hne] at hidle
        · simp [meterEdge, meterResetIfStalled, meterEdgeCore, hw, hne] at hidle
      · simp [meterEdge, meterResetIfStalled, meterEdgeCore, Nat.not_le.mpr
          (by omega : pc + 1 < wake_up_threshold)]
    | true =>
      by_cases hgap : now - lt > pulse_timeout_micros
      · simp [meterEdge, meterResetIfStalled, hgap, meterEdgeCore,
          wake_up_threshold]
      · by_cases hbi : bi < bits.length
        · by_cases hdone : bits.length ≤ bi + 1
          · simp [meterEdge, meterResetIfStalled, hgap,
              meterEdgeCore, hbi, hdone]
          · simp [meterEdge, meterResetIfStalled, hgap,
              meterEdgeCore, hbi, hdone] at hidle
        · simp [meterEdge, meterResetIfStalled, hgap, meterEdgeCore, hbi]
            at hidle

/-- Witness for claim C4: an idle task one pulse short of the wake
threshold, with a two-bit response buffer. -/
theorem claim_C4_witness :
    ((⟨9, 0, false, [0, 1], true, 0⟩ : MeterTxState).transmitting = false →
      (⟨9, 0, false, [0, 1], true, 0⟩ : MeterTxState).bit_index = 0) ∧
    C4EdgeSpec ⟨9, 0, false, [0, 1], true, 0⟩ 1000 [] :=
  ⟨by decide,
   claim_C4_meter_edge_step ⟨9, 0, false, [0, 1], true, 0⟩ 1000 []
     (by decide)⟩

theorem sentBits_clock_task (samples : List Bool) :
    sentBits (clock_task_trace samples) =
      samples.map (fun v => if v then 1 else 0) := by
  induction samples with
  | nil => rfl
  | cons v rest ih =>
    have hsplit : clock_task_trace (v :: rest) =
        clock_cycle_trace v ++ clock_task_trace rest := by
      simp [clock_task_trace]
    rw [hsplit]
    have happ : sentBits (clock_cycle_trace v ++ clock_task_trace rest) =
        sentBits (clock_cycle_trace v) ++ sentBits (clock_task_trace rest) := by
      simp [sentBits]
    rw [happ, ih]
    cases v <;> rfl

theorem sampledBits_clock_task (samples : List Bool) :
    sampledBits (clock_task_trace samples) =
      samples.map (fun v => if v then 1 else 0) := by
  induction samples with
  | nil => rfl
  | cons v rest ih =>
    have hsplit : clock_task_trace (v :: rest) =
        clock_cycle_trace v ++ clock_task_trace rest := by
      simp [clock_task_trace]
    rw [hsplit]
    have happ : sampledBits (clock_cycle_trace v ++ clock_task_trace rest) =
        sampledBits (clock_cycle_trace v) ++
          sampledBits (clock_task_trace rest) := by
      simp [sampledBits]
    rw [happ, ih]
    cases v <;> rfl

theorem runQueue_fifo (ops : List QOp) : ∀ (q qf rcvd : List Nat),
    runQueue ops q = some (qf, rcvd, 0) → q ++ sendsOf ops = rcvd ++ qf := by
  induction ops with
  | nil =>
    intro q qf rcvd h
    simp [runQueue] at h
    obtain ⟨rfl, rfl⟩ := h
    simp [sendsOf]
  | cons op rest ih =>
    intro q qf rcvd h
    cases op with
    | send b =>
      simp only [runQueue] at h
      by_cases hc : q.length < queue_capacity
      · rw [if_pos hc] at h
        have hrec := ih (q ++ [b]) qf rcvd h
        have hsend : sendsOf (QOp.send b :: rest) = b :: sendsOf rest := rfl
        rw [hsend, ← hrec]
        simp
      · rw [if_neg hc] at h
        cases hr : runQueue rest q with
        | none =>
          rw [hr] at h
          exact absurd h (by simp)
        | some t =>
          obtain ⟨qf', rcvd', drops'⟩ := t
          rw [hr] at h
          simp at h
    | recv =>
      cases q with
      | nil => simp [runQueue] at h
      | cons x q' =>
        simp only [runQueue] at h
        cases hr : runQueue rest q' with
        | none =>
          rw [hr] at h
          exact absurd h (by simp)
        | some t =>
          obtain ⟨qf', rcvd', drops'⟩ := t
          rw [hr] at h
          simp at h
          obtain ⟨rfl, hrc, hdr⟩ := h
          rw [hdr] at hr
          have hrec := ih q' qf' rcvd' hr
          have hsend : sendsOf (QOp.recv :: rest) = sendsOf rest := rfl
          rw [hsend, ← hrc]
          simpa using hrec

/-- Claim C5: each clock-task cycle attempts exactly one enqueue, of
exactly the sampled mid-cycle bit, in cycle order (`sentBits` over the
task's action trace equals the sample sequence, one entry per cycle);
and the bit channel is FIFO — for any interleaving with no drops, the
received sequence prefixes the sent sequence
(`initial ++ sends = received ++ remaining`), so a transaction whose
schedule starts empty and is fully drained hands the reassembler
exactly the mid-cycle samples in order. -/
theorem claim_C5_sampler_ordering (samples : List Bool) :
    sentBits (clock_task_trace samples) =
      samples.map (fun v => if v then 1 else 0) ∧
    sampledBits (clock_task_trace samples) =
      sentBits (clock_task_trace samples) ∧
    (sentBits (clock_task_trace samples)).length = samples.length ∧
    (∀ (ops : List QOp) (q qf rcvd : List Nat),
      runQueue ops q = some (qf, rcvd, 0) →
      q ++ sendsOf ops = rcvd ++ qf) ∧
    (∀ (ops : List QOp) (qf rcvd : List Nat),
      runQueue ops [] = some (qf, rcvd, 0) →
      sendsOf ops = sentBits (clock_task_trace samples) →
      rcvd ++ qf = samples.map (fun v => if v then 1 else 0)) := by
  refine ⟨sentBits_clock_task samples, ?_, ?_, runQueue_fifo, ?_⟩
  · rw [sentBits_clock_task, sampledBits_clock_task]
  · rw [sentBits_clock_task]
    simp
  · intro ops qf rcvd hrun hsend
    have := runQueue_fifo ops [] qf rcvd hrun
    rw [List.nil_append] at this
    rw [← this, hsend, sentBits_clock_task]

/-- Witness for claim C5: three cycles sampling 1, 0, 1, with a
schedule that interleaves receives and drains the queue. -/
theorem claim_C5_witness :
    (runQueue [.send 1, .recv, .send 0, .send 1, .recv, .recv] [] =
       some ([], [1, 0, 1], 0) ∧
     sendsOf [.send 1, .recv, .send 0, .send 1, .recv, .recv] =
       sentBits (clock_task_trace [true, false, true])) ∧
    ([1, 0, 1] ++ ([] : List Nat) =
       [true, false, true].map (fun v => if v then 1 else 0)) :=
  ⟨⟨by decide, by decide⟩,
   (claim_C5_sampler_ordering [true, false, true]).2.2.2.2
     [.send 1, .recv, .send 0, .send 1, .recv, .recv] [] [1, 0, 1]
     (by decide) (by decide)⟩

theorem extract_ok_le (g : UartFrame) (ch : Nat)
    (h : extract_char_from_frame g = .ok ch) : ch ≤ 127 := by
  unfold extract_char_from_frame at h
  cases hv : UartFrame.validate g with
  | error e =>
    rw [hv] at h
    exact absurd h (by simp)
  | ok u =>
    rw [hv] at h
    have h2 : (if charValue (dataBits g.bits) ≤ 127
        then (Except.ok (charValue (dataBits g.bits)) : Except MtuError Nat)
        else .error .FramingError) = .ok ch := h
    by_cases hc : charValue (dataBits g.bits) ≤ 127
    · rw [if_pos hc] at h2
      injection h2 with he
      omega
    · rw [if_neg hc] at h2
      exact absurd h2 (by simp)

theorem frame_decode_ok_le (fbits : List Nat) (f : UartFraming) (ch : Nat)
    (h : frame_decode fbits f = .ok ch) : ch ≤ 127 := by
  unfold frame_decode at h
  cases hn : UartFrame.new fbits f with
  | error e =>
    rw [hn] at h
    exact absurd h (by simp)
  | ok frame =>
    rw [hn] at h
    exact extract_ok_le frame ch h

theorem data_task_go_slot (f : UartFraming) (evs : List BitEvent) :
    ∀ (ph : RxPhase) (chars : List Nat) (slot : Option (List Nat)),
    (∀ x ∈ chars, x ≤ 127) → chars.length ≤ message_capacity →
    (data_task_go f evs ph chars slot).1 = slot ∨
    ∃ cs, (data_task_go f evs ph chars slot).1 = some cs ∧ cs ≠ [] ∧
      (cs.getLast? = some 13 ∨ cs.length = message_capacity) ∧
      ∀ x ∈ cs, x ≤ 127 := by
  induction evs with
  | nil =>
    intro ph chars slot _ _
    left
    cases ph <;> rfl
  | cons ev rest ih =>
    intro ph chars slot hch hcap
    cases ph with
    | hunting =>
      cases ev with
      | gap => exact ih .hunting chars slot hch hcap
      | bit b =>
        rcases b with _ | b'
        · exact ih (.gathering [0]) chars slot hch hcap
        · exact ih .hunting chars slot hch hcap
    | gathering acc =>
      cases ev with
      | gap => exact ih .hunting chars slot hch hcap
      | bit v =>
        by_cases hlen : (acc ++ [v]).length < f.bits_per_frame
        · have hlen' : acc.length + 1 < f.bits_per_frame := by simpa using hlen
          have hred : data_task_go f (.bit v :: rest) (.gathering acc)
              chars slot =
              data_task_go f rest (.gathering (acc ++ [v])) chars slot := by
            simp [data_task_go, hlen']
          rw [hred]
          exact ih _ chars slot hch hcap
        · have hlen' : ¬acc.length + 1 < f.bits_per_frame := by simpa using hlen
          cases hd : frame_decode (acc ++ [v]) f with
          | error e =>
            have hred : data_task_go f (.bit v :: rest) (.gathering acc)
                chars slot =
                data_task_go f rest .hunting chars slot := by
              simp [data_task_go, hlen', hd]
            rw [hred]
            exact ih _ chars slot hch hcap
          | ok ch =>
            by_cases hfull : chars.length < message_capacity
            · have hpush : (if chars.length < message_capacity
                  then chars ++ [ch] else chars) = chars ++ [ch] :=
                if_pos hfull
              by_cases hcr : ch = 13
              · have hred : data_task_go f (.bit v :: rest) (.gathering acc)
                    chars slot = (some (chars ++ [ch]), []) := by
                  simp [data_task_go, hlen', hd, hcr, hfull]
                rw [hred]
                right
                refine ⟨chars ++ [ch], rfl, by simp, ?_, ?_⟩
                · left
                  rw [hcr]
                  exact List.getLast?_concat chars
                · intro x hx
                  rcases List.mem_append.mp hx with hx | hx
                  · exact hch x hx
                  · have hx' : x = ch := by simpa using hx
                    subst hx'
                    omega
              · have hred : data_task_go f (.bit v :: rest) (.gathering acc)
                    chars slot =
                    data_task_go f rest .hunting (chars ++ [ch]) slot := by
                  simp [data_task_go, hlen', hd, hcr, hfull]
                rw [hred]
                refine ih _ (chars ++ [ch]) slot ?_ (by simp; omega)
                intro x hx
                rcases List.mem_append.mp hx with hx | hx
                · exact hch x hx
                · have hx' : x = ch := by simpa using hx
                  subst hx'
                  exact frame_decode_ok_le _ _ _ hd
            · have hcap' : chars.length = message_capacity := by omega
              by_cases hcr : ch = 13
              · have hred : data_task_go f (.bit v :: rest) (.gathering acc)
                    chars slot = (some chars, []) := by
                  simp [data_task_go, hlen', hd, hcr, hfull]
                rw [hred]
                right
                refine ⟨chars, rfl, ?_, Or.inr hcap', hch⟩
                intro hnil
                rw [hnil] at hcap'
                simp [message_capacity] at hcap'
              · have hred : data_task_go f (.bit v :: rest) (.gathering acc)
                    chars slot =
                    data_task_go f rest .hunting chars slot := by
                  simp [data_task_go, hlen', hd, hcr, hfull]
                rw [hred]
                exact ih _ chars slot hch hcap

theorem data_task_frameA (rest : List BitEvent) (chars : List Nat)
    (slot : Option (List Nat)) (hfull : chars.length < message_capacity) :
    data_task_go .SevenE1
        (([0, 1, 0, 0, 0, 0, 0, 1, 0, 1].map BitEvent.bit) ++ rest)
        .hunting chars slot =
      data_task_go .SevenE1 rest .hunting (chars ++ [65]) slot := by
  have hdec : frame_decode [0, 1, 0, 0, 0, 0, 0, 1, 0, 1] .SevenE1 =
      .ok 65 := by decide
  simp [data_task_go, UartFraming.bits_per_frame, hdec, hfull]

theorem data_task_frameCR_full (chars : List Nat)
    (slot : Option (List Nat)) (hfull : ¬chars.length < message_capacity) :
    data_task_go .SevenE1
        ([0, 1, 0, 1, 1, 0, 0, 0, 1, 1].map BitEvent.bit)
        .hunting chars slot = (some chars, []) := by
  have hdec : frame_decode [0, 1, 0, 1, 1, 0, 0, 0, 1, 1] .SevenE1 =
      .ok 13 := by decide
  simp [data_task_go, UartFraming.bits_per_frame, hdec, hfull]

theorem data_task_repA (n : Nat) : ∀ (rest : List BitEvent)
    (chars : List Nat) (slot : Option (List Nat)),
    chars.length + n ≤ message_capacity →
    data_task_go .SevenE1
        (((List.replicate n
            ([0, 1, 0, 0, 0, 0, 0, 1, 0, 1] : List Nat)).flatten).map
              BitEvent.bit ++ rest) .hunting chars slot =
      data_task_go .SevenE1 rest .hunting
        (chars ++ List.replicate n 65) slot := by
  induction n with
  | zero =>
    intro rest chars slot _
    simp
  | succ n ih =>
    intro rest chars slot hle
    have hsplit :
        (((List.replicate (n + 1)
            ([0, 1, 0, 0, 0, 0, 0, 1, 0, 1] : List Nat)).flatten).map
              BitEvent.bit ++ rest) =
        (([0, 1, 0, 0, 0, 0, 0, 1, 0, 1] : List Nat).map BitEvent.bit) ++
          ((((List.replicate n
              ([0, 1, 0, 0, 0, 0, 0, 1, 0, 1] : List Nat)).flatten).map
                BitEvent.bit) ++ rest) := by
      simp [List.replicate_succ]
    rw [hsplit, data_task_frameA _ _ _ (by omega)]
    rw [ih rest (chars ++ [65]) slot (by simp; omega)]
    have hjoin : (chars ++ [65]) ++ List.replicate n 65 =
        chars ++ List.replicate (n + 1) 65 := by
      simp [List.replicate_succ]
    rw [hjoin]

/-- Counterexample to claim C6 as stated: after 256 validated 'A'
frames fill the message scratch to its `heapless::Vec<char, 256>`
capacity, a CR frame's push is silently discarded
(`let _ = received_chars.push(ch)`) yet the CR still seals the message,
so the slot — previously empty — is stored with the 256 accumulated
characters and no terminating CR. -/
theorem claim_C6_counterexample :
    (data_task .SevenE1
        (((List.replicate 256
            ([0, 1, 0, 0, 0, 0, 0, 1, 0, 1] : List Nat)).flatten ++
          [0, 1, 0, 1, 1, 0, 0, 0, 1, 1]).map BitEvent.bit) none).1 =
      some (List.replicate 256 65) ∧
    (List.replicate 256 65).getLast? ≠ some 13 ∧
    some (List.replicate 256 65) ≠ (none : Option (List Nat)) := by
  refine ⟨?_, by decide, by decide⟩
  have h1 := data_task_repA 256
    (([0, 1, 0, 1, 1, 0, 0, 0, 1, 1] : List Nat).map BitEvent.bit) [] none
    (by simp [message_capacity])
  have h2 := data_task_frameCR_full (List.replicate 256 65) none
    (by rw [List.length_replicate]; simp [message_capacity])
  unfold data_task
  rw [List.map_append, h1, List.nil_append, h2]

/-- Claim C6 as amended: the last-message slot is written only when a
decoded carriage return seals a message, so at every step it either
still holds its pre-run value or holds a non-empty sequence of
validated characters (each in [0, 127]) that ends in CR (13) — except
that when the CR arrives with the 256-character scratch already full,
the stored message is the 256 accumulated characters without the
terminating CR (the silently dropped push of `claim_C6_counterexample`);
a run that stops by cancellation or timeout with a non-empty scratch
still never stores the partial data — the leftover characters are only
handed back as a diagnostic.  Quantifying over every event sequence
covers every intermediate step, since a cancellation or timeout at that
point yields exactly such a run. -/
theorem claim_C6_no_partial_storage (f : UartFraming) (evs : List BitEvent)
    (slot : Option (List Nat)) :
    (data_task f evs slot).1 = slot ∨
    ∃ cs, (data_task f evs slot).1 = some cs ∧ cs ≠ [] ∧
      (cs.getLast? = some 13 ∨ cs.length = message_capacity) ∧
      ∀ x ∈ cs, x ≤ 127 :=
  data_task_go_slot f evs .hunting [] slot (by simp)
    (by simp [message_capacity])

end NrfMtu
